import Mathlib

/- Verification of the graphql_display data-transformation pipeline.

  The JavaScript sources are shallowly embedded: JS numbers are modelled as
  rationals, with an optional layer (none = NaN) where NaN can arise; JS
  strings are Lean strings; array order is list order.  Every definition is
  traced from the cited source file and lines.  ES2019 guarantees a stable
  Array.prototype.sort, which is modelled by List.insertionSort (stable sorts
  by a total preorder agree on every input). -/

namespace GraphqlDisplay

/-- A JavaScript number that may be NaN: none models NaN (which also results
from drawing an absent numeric field into arithmetic). -/
abbrev JSNum := Option ℚ

/-- JS addition lifted to possibly-NaN numbers: NaN absorbs. -/
def jadd : JSNum → JSNum → JSNum
  | some a, some b => some (a + b)
  | _, _ => none

/-- JS expression x || 0 applied to a number: NaN and 0 are both falsy and
yield 0; every other number yields itself (exact also at 0). -/
def jsOr0 : JSNum → ℚ
  | none => 0
  | some v => v

/-- JS expression obj?.name || (quoted) Unknown, from part_001 lines 31 and 50:
an absent object or name, and also an empty-string name (falsy), yield the
Unknown label. -/
def jsName : Option String → String
  | none => "Unknown"
  | some s => if s = "" then "Unknown" else s

/-- Two-decimal rounding as a rational: the value that JS toFixed(2) prints
and parseFloat reads back.  JS toFixed picks the integer n minimizing the
distance of n / 100 to the value, ties to the larger n, i.e. floor (x*100 + 1/2). -/
def toFixed2Val (q : ℚ) : ℚ := (⌊q * 100 + 1/2⌋ : ℚ) / 100

/-- Decimal digits of the fractional part, width 2. -/
def pad2 (n : ℕ) : String := if n < 10 then "0" ++ toString n else toString n

/-- JS toFixed(2) on a nonnegative number, as the exact decimal string of the
rounded value. -/
def toFixed2 (q : ℚ) : String :=
  let n := ⌊q * 100 + 1/2⌋
  toString (n / 100) ++ "." ++ pad2 (n % 100).toNat

/-- Audit ratio string, traced from src/js/components/stats-card.js lines
31-33, src/unnamed/part_003 line 31 and src/unnamed/part_009 line 953, which
all compute: received > 0 ? (done / received).toFixed(2) : (quoted) 0.00. -/
def auditRatio (done received : ℕ) : String :=
  if 0 < received then toFixed2 ((done : ℚ) / received) else "0.00"

/-- Numeric value of the displayed ratio: parseFloat applied to the string
auditRatio produces.  The comparisons made with it (against 1 and 0.5) are
unaffected by the binary-float reading since both thresholds are exactly
representable and the parsed value is within 2^-50 of the rational. -/
def ratioShown (done received : ℕ) : ℚ :=
  if 0 < received then toFixed2Val ((done : ℚ) / received) else 0

/-- One angular segment of the donut, in degrees. -/
structure Seg where
  startDeg : ℚ
  endDeg : ℚ
deriving DecidableEq, Repr

/-- Derived chart data of AuditRatio.createGraph in src/unnamed/part_003
lines 19-91: the center ratio string, the done segment and the received
segment.  startAngle begins at -90, the done span is done/total*360, the
received segment starts where the done one ends (startAngle += doneAngle)
and spans received/total*360. -/
def auditGraphData_v1 (auditsDone auditsReceived : ℕ) : String × Seg × Seg :=
  let total : ℚ := (auditsDone : ℚ) + auditsReceived
  let ratio := if 0 < auditsReceived then toFixed2 ((auditsDone : ℚ) / auditsReceived) else "0.00"
  let doneAngle := ((auditsDone : ℚ) / total) * 360
  let rcvAngle := ((auditsReceived : ℚ) / total) * 360
  (ratio, ⟨-90, -90 + doneAngle⟩, ⟨-90 + doneAngle, -90 + doneAngle + rcvAngle⟩)

/-- Derived chart data of AuditRatio.createGraph in src/unnamed/part_009
lines 915-1003: the same three quantities computed there (line 953 for the
ratio, lines 960-1002 for the two segments). -/
def auditGraphData_v2 (auditsDone auditsReceived : ℕ) : String × Seg × Seg :=
  let total : ℚ := (auditsDone : ℚ) + auditsReceived
  let ratio := if 0 < auditsReceived then toFixed2 ((auditsDone : ℚ) / auditsReceived) else "0.00"
  let doneAngle := ((auditsDone : ℚ) / total) * 360
  let receivedAngle := ((auditsReceived : ℚ) / total) * 360
  (ratio, ⟨-90, -90 + doneAngle⟩, ⟨-90 + doneAngle, -90 + doneAngle + receivedAngle⟩)

/-- Render guard shared by both revisions (part_003 lines 8-16, part_009
lines 896-906): when both counts are 0 an empty state is shown and no graph
data is computed. -/
def renderAudit_v1 (auditsDone auditsReceived : ℕ) : Option (String × Seg × Seg) :=
  if auditsDone = 0 ∧ auditsReceived = 0 then none
  else some (auditGraphData_v1 auditsDone auditsReceived)

/-- Render guard of the part_009 revision, lines 896-906. -/
def renderAudit_v2 (auditsDone auditsReceived : ℕ) : Option (String × Seg × Seg) :=
  if auditsDone = 0 ∧ auditsReceived = 0 then none
  else some (auditGraphData_v2 auditsDone auditsReceived)

/-- Flags of the two arc commands of a donut-segment path.  The emitted path
is M (outer start) A outerR outerR 0 large 1 (outer end) L (inner end)
A innerR innerR 0 large 0 (inner start) Z; the trigonometric endpoint
coordinates are not needed by any claim and are left abstract here. -/
structure ArcFlags where
  outerLarge : ℕ
  outerSweep : ℕ
  innerLarge : ℕ
  innerSweep : ℕ
deriving DecidableEq, Repr

/-- Arc flags of AuditRatio.createArc, src/unnamed/part_003 lines 93-105:
large = endAngle - startAngle > 180 ? 1 : 0, used for both arc commands. -/
def createArc (startAngle endAngle : ℚ) : ArcFlags :=
  let large : ℕ := if 180 < endAngle - startAngle then 1 else 0
  ⟨large, 1, large, 0⟩

/-- Arc flags of AuditRatio.createDonutSegment, src/unnamed/part_009 lines
1133-1155: largeArc = endAngle - startAngle > 180 ? 1 : 0, used for both
arc commands of the path. -/
def createDonutSegment (startAngle endAngle : ℚ) : ArcFlags :=
  let largeArc : ℕ := if 180 < endAngle - startAngle then 1 else 0
  ⟨largeArc, 1, largeArc, 0⟩

/-- Status label and color of the part_003 donut, lines 83-88: a binary
threshold on parseFloat of the displayed ratio string. -/
def auditStatus_v1 (done received : ℕ) : String × String :=
  if 1 ≤ ratioShown done received then ("Good", "#48bb78") else ("Low", "#ed8936")

/-- Status label and color of the part_009 donut, lines 1087-1114: three
tiers on parseFloat of the displayed ratio string. -/
def auditStatus_v2 (done received : ℕ) : String × String :=
  if 1 ≤ ratioShown done received then ("✓ Good Ratio", "#48bb78")
  else if 1/2 ≤ ratioShown done received then ("⚠ Average Ratio", "#ed8936")
  else ("⚠ Low Ratio", "#f56565")

/-- Raw XP transaction as the aggregator receives it.  createdAt is a
timestamp (the JS code compares Date values numerically); amount is none when
the optional field is absent (adding an absent field produces NaN in JS, which
jadd mirrors); objectName is none when object or object.name is absent. -/
structure Transaction where
  createdAt : ℤ
  amount : JSNum
  path : String
  objectName : Option String
deriving DecidableEq, Repr

/-- Timeline point produced by DataProcessor.processXPTimeline, part_001
lines 24-33. -/
structure TimelinePoint where
  date : ℤ
  amount : JSNum
  cumulative : JSNum
  path : String
  objectName : String
deriving DecidableEq, Repr

/-- Left-to-right scan of part_001 lines 23-33: cumulative += amount, one
point per transaction. -/
def timelineScan : JSNum → List Transaction → List TimelinePoint
  | _, [] => []
  | cum, t :: rest =>
    let cum2 := jadd cum t.amount
    ⟨t.createdAt, t.amount, cum2, t.path, jsName t.objectName⟩ :: timelineScan cum2 rest

/-- Ascending-by-date comparator of part_001 lines 18-20. -/
def byDate (a b : Transaction) : Prop := a.createdAt ≤ b.createdAt

instance : DecidableRel byDate := fun a b => by unfold byDate; infer_instance

/-- DataProcessor.processXPTimeline, src/unnamed/part_001 lines 12-34: guard
for empty input (the scan of an empty list is already empty), stable sort of
a copy by ascending createdAt, then the cumulative scan starting from 0. -/
def processXPTimeline (transactions : List Transaction) : List TimelinePoint :=
  timelineScan (some 0) (transactions.insertionSort byDate)

/-- First-match lookup in an insertion-ordered association list, the model of
Map.prototype.get. -/
def lookupVal : List (String × JSNum) → String → Option JSNum
  | [], _ => none
  | e :: rest, k => if e.1 = k then some e.2 else lookupVal rest k

/-- Update of an insertion-ordered association list, the model of
Map.prototype.set: replace the value in place, or append a new key. -/
def upsert : List (String × JSNum) → String → JSNum → List (String × JSNum)
  | [], k, v => [(k, v)]
  | e :: rest, k, v => if e.1 = k then (e.1, v) :: rest else e :: upsert rest k v

/-- One forEach step of part_001 lines 49-53: the projectName defaulting, the
read projectMap.get(projectName) || 0 (undefined and NaN both fall back to 0)
and the write of currentXP + transaction.amount. -/
def groupStep (m : List (String × JSNum)) (t : Transaction) : List (String × JSNum) :=
  let projectName := jsName t.objectName
  let currentXP : ℚ := jsOr0 ((lookupVal m projectName).getD (some 0))
  upsert m projectName (jadd (some currentXP) t.amount)

/-- Grouping of part_001 lines 47-53: fold the transactions through the Map
in input order; entries carry first-insertion order. -/
def groupBySubject (transactions : List Transaction) : List (String × JSNum) :=
  transactions.foldl groupStep []

/-- Descending-by-xp sort relation of part_001 line 58, comparator
(a, b) => b.xp - a.xp: a stays before b when the comparator is not positive;
a NaN comparator result is not positive either, so it keeps the order. -/
def xpDesc (a b : String × JSNum) : Prop :=
  match a.2, b.2 with
  | some x, some y => y ≤ x
  | _, _ => True

instance : DecidableRel xpDesc := fun a b => by
  unfold xpDesc
  cases a.2 <;> cases b.2 <;> simp <;> infer_instance

/-- Clamped end index of JS slice(0, limit) on a list of the given length:
a negative limit counts from the end, a large one is capped. -/
def jsSliceEnd (len : ℕ) (limit : ℤ) : ℕ :=
  (if limit < 0 then max ((len : ℤ) + limit) 0 else min limit len).toNat

/-- DataProcessor.getTopProjects, src/unnamed/part_001 lines 42-60: group by
subject label, sort descending by total, then slice(0, limit). -/
def getTopProjects (transactions : List Transaction) (limit : ℤ) : List (String × JSNum) :=
  let sorted := (groupBySubject transactions).insertionSort xpDesc
  sorted.take (jsSliceEnd sorted.length limit)

/-- Minimum of a list of numbers, Math.min(...data) for nonempty data. -/
def listMin : List ℚ → ℚ
  | [] => 0
  | a :: l => l.foldl min a

/-- Maximum of a list of numbers, Math.max(...data) for nonempty data. -/
def listMax : List ℚ → ℚ
  | [] => 0
  | a :: l => l.foldl max a

/-- Result record of SVGBuilder.calculateScale. -/
structure ScaleResult where
  min : ℚ
  max : ℚ
  range : ℚ
  scale : ℚ
deriving DecidableEq, Repr

/-- SVGBuilder.calculateScale, src/js/graphs/svg-builder.js lines 295-307:
range = dataMax - dataMin and scale = max / (range || 1), so a degenerate
domain falls back to divisor 1 instead of dividing by zero. -/
def calculateScale (data : List ℚ) (max : ℚ) : ScaleResult :=
  let dataMin := listMin data
  let dataMax := listMax data
  let range := dataMax - dataMin
  let scale := max / (if range = 0 then 1 else range)
  ⟨dataMin, dataMax, range, scale⟩

/-- JS division where a zero divisor produces NaN (0/0) or an infinity, none
of which is a finite pixel coordinate; both are modelled as none. -/
def jsDiv (a b : ℚ) : JSNum := if b = 0 then none else some (a / b)

/-- The x pixel coordinate of XPTimeline.createGraph, src/js/graphs/
xp-timeline.js line 148: ((date - minDate) / dateRange) * graphWidth with
dateRange = maxDate - minDate taken from lines 80-82, computed with no
degenerate-domain guard. -/
def timelineX (date minDate maxDate graphWidth : ℚ) : JSNum :=
  (jsDiv (date - minDate) (maxDate - minDate)).map (· * graphWidth)

/-- Sum of the amounts of a transaction list, reading an absent amount as 0;
used to state totals for lists whose amounts are all present. -/
def amountsSum (ts : List Transaction) : ℚ := (ts.map (fun t => t.amount.getD 0)).sum

/-- All amounts of the list are present. -/
def allPresent (ts : List Transaction) : Prop := ∀ t ∈ ts, t.amount.isSome

instance : DecidablePred allPresent := fun ts => by unfold allPresent; infer_instance

/-- Comparison of possibly-NaN running totals: both are real numbers and they
are ordered. -/
def jle (x y : JSNum) : Prop := ∃ a b, x = some a ∧ y = some b ∧ a ≤ b

/-- Sum of the values of grouped entries, reading a NaN total as 0; used to
state losslessness for lists whose amounts are all present. -/
def entriesSum (m : List (String × JSNum)) : ℚ := (m.map (fun e => e.2.getD 0)).sum

/-- C2: the audit ratio is the exact two-decimal string of performed/received
when received > 0, the sentinel when received = 0 (the function is total, so
no division fault), and the three concrete instances hold. -/
theorem auditRatio_contract :
    (∀ p r : ℕ, 0 < r → auditRatio p r = toFixed2 ((p : ℚ) / r)) ∧
    (∀ p : ℕ, auditRatio p 0 = "0.00") ∧
    auditRatio 0 0 = "0.00" ∧ auditRatio 5 0 = "0.00" ∧ auditRatio 4 2 = "2.00" := by
  refine ⟨fun p r hr => by simp [auditRatio, hr], fun p => by simp [auditRatio],
    by simp [auditRatio], by simp [auditRatio], ?_⟩
  have hq : ((4 : ℕ) : ℚ) / ((2 : ℕ) : ℚ) = 2 := by norm_num
  have hfl : (⌊(2 : ℚ) * 100 + 1/2⌋ : ℤ) = 200 := by norm_num
  rw [auditRatio, if_pos (by norm_num), hq, toFixed2]
  simp only [hfl]
  decide

/-- Witness for C2 at performed 4, received 2. -/
theorem auditRatio_contract_w :
    auditRatio 4 2 = toFixed2 (((4 : ℕ) : ℚ) / ((2 : ℕ) : ℚ)) :=
  auditRatio_contract.1 4 2 (by norm_num)

/-- C6: for positive counts the donut segments start at -90 degrees, each
span is value/total times 360, the second segment starts exactly where the
first ends, the order is performed then received (the first and second
component of the returned pair), and the spans add up to exactly 360; both
revisions produce the same segments. -/
theorem donutSegments_partition (p r : ℕ) (hp : 0 < p) (hr : 0 < r) :
    (auditGraphData_v1 p r).2.1.startDeg = -90 ∧
    (auditGraphData_v1 p r).2.1.endDeg - (auditGraphData_v1 p r).2.1.startDeg
      = ((p : ℚ) / ((p : ℚ) + (r : ℚ))) * 360 ∧
    (auditGraphData_v1 p r).2.2.startDeg = (auditGraphData_v1 p r).2.1.endDeg ∧
    (auditGraphData_v1 p r).2.2.endDeg - (auditGraphData_v1 p r).2.2.startDeg
      = ((r : ℚ) / ((p : ℚ) + (r : ℚ))) * 360 ∧
    ((auditGraphData_v1 p r).2.1.endDeg - (auditGraphData_v1 p r).2.1.startDeg)
      + ((auditGraphData_v1 p r).2.2.endDeg - (auditGraphData_v1 p r).2.2.startDeg) = 360 ∧
    auditGraphData_v2 p r = auditGraphData_v1 p r := by
  have hp0 : (0 : ℚ) < (p : ℚ) := by exact_mod_cast hp
  have hr0 : (0 : ℚ) < (r : ℚ) := by exact_mod_cast hr
  have htot : ((p : ℚ) + (r : ℚ)) ≠ 0 := by positivity
  refine ⟨rfl, by simp [auditGraphData_v1], by simp [auditGraphData_v1],
    by simp [auditGraphData_v1], ?_, rfl⟩
  simp only [auditGraphData_v1]
  field_simp
  ring

/-- Witness for C6 at counts 3 and 1: the first segment spans 270 degrees
starting at -90 and the second spans 90 degrees starting at 180. -/
theorem donutSegments_partition_w :
    (auditGraphData_v1 3 1).2.1 = ⟨-90, 180⟩ ∧
    (auditGraphData_v1 3 1).2.2 = ⟨180, 270⟩ ∧
    ((auditGraphData_v1 3 1).2.1.startDeg = -90 ∧
      (auditGraphData_v1 3 1).2.1.endDeg - (auditGraphData_v1 3 1).2.1.startDeg
        = (((3 : ℕ) : ℚ) / (((3 : ℕ) : ℚ) + ((1 : ℕ) : ℚ))) * 360 ∧
      (auditGraphData_v1 3 1).2.2.startDeg = (auditGraphData_v1 3 1).2.1.endDeg ∧
      (auditGraphData_v1 3 1).2.2.endDeg - (auditGraphData_v1 3 1).2.2.startDeg
        = (((1 : ℕ) : ℚ) / (((3 : ℕ) : ℚ) + ((1 : ℕ) : ℚ))) * 360 ∧
      ((auditGraphData_v1 3 1).2.1.endDeg - (auditGraphData_v1 3 1).2.1.startDeg)
        + ((auditGraphData_v1 3 1).2.2.endDeg - (auditGraphData_v1 3 1).2.2.startDeg) = 360 ∧
      auditGraphData_v2 3 1 = auditGraphData_v1 3 1) := by
  refine ⟨?_, ?_, donutSegments_partition 3 1 (by norm_num) (by norm_num)⟩
  · simp only [auditGraphData_v1]
    norm_num
  · simp only [auditGraphData_v1]
    norm_num

/-- C7: in both revisions of the donut-arc path builder, the large-arc flag
of both emitted arc commands is 1 exactly when the segment spans strictly
more than 180 degrees and 0 otherwise, in particular 0 at the exact
180-degree boundary. -/
theorem donutArc_largeFlag (s e : ℚ) :
    ((createDonutSegment s e).outerLarge = 1 ↔ 180 < e - s) ∧
    ((createDonutSegment s e).outerLarge = 0 ↔ ¬ 180 < e - s) ∧
    (createDonutSegment s e).innerLarge = (createDonutSegment s e).outerLarge ∧
    createArc s e = createDonutSegment s e ∧
    (createDonutSegment s (s + 180)).outerLarge = 0 := by
  have hb : ¬ (180 : ℚ) < s + 180 - s := by norm_num
  by_cases h : 180 < e - s <;>
    simp [createDonutSegment, createArc, h, hb]

/-- C8 (code bug): XPTimeline.createGraph maps the x coordinate with an
unguarded division by dateRange, so when all points share one timestamp
(degenerate domain, dateRange = 0) every x coordinate is NaN instead of the
claimed rangeMin; SVGBuilder.calculateScale, by contrast, falls back to
divisor 1 on a degenerate domain (scale = max, no division fault). -/
theorem timelineX_degenerate_nan :
    timelineX 0 0 0 680 = none ∧
    (∀ d w : ℚ, timelineX d w w 680 = none) ∧
    (calculateScale [0, 0] 100).scale = 100 ∧
    (calculateScale [0, 0] 100).range = 0 := by
  refine ⟨by simp [timelineX, jsDiv], fun d w => ?_, ?_, ?_⟩
  · simp [timelineX, jsDiv]
  · simp [calculateScale, listMin, listMax]
  · simp [calculateScale, listMin, listMax]

/-- C9 counterexample: in the part_009 donut revision two audit-count pairs
whose displayed ratios are both below 1 get different statuses, and the pair
1/4 gets a color that is neither the positive color nor the warning color,
so a third status tier exists and the binary-threshold claim is false. -/
theorem auditStatus_threeTiers_cx :
    auditStatus_v2 1 4 = ("⚠ Low Ratio", "#f56565") ∧
    auditStatus_v2 3 4 = ("⚠ Average Ratio", "#ed8936") ∧
    ratioShown 1 4 < 1 ∧ ratioShown 3 4 < 1 ∧
    (auditStatus_v2 1 4).2 ≠ "#ed8936" ∧ (auditStatus_v2 1 4).2 ≠ "#48bb78" := by
  have h1 : ratioShown 1 4 = 1/4 := by
    rw [ratioShown, if_pos (by norm_num), toFixed2Val]
    norm_num
  have h3 : ratioShown 3 4 = 3/4 := by
    rw [ratioShown, if_pos (by norm_num), toFixed2Val]
    norm_num
  rw [auditStatus_v2, auditStatus_v2, h1, h3]
  norm_num
  decide

/-- C9 amended: the part_003 revision chooses by the binary threshold on the
displayed (two-decimal-rounded) ratio: at least 1 gives Good with the
positive color and anything below 1 gives Low with the warning color; the
part_009 revision shares the good tier but splits the rest at 0.5 into an
average tier with the warning color and a third low tier with a distinct
color. -/
theorem auditStatus_thresholds (d r : ℕ) :
    (1 ≤ ratioShown d r →
      auditStatus_v1 d r = ("Good", "#48bb78") ∧
      auditStatus_v2 d r = ("✓ Good Ratio", "#48bb78")) ∧
    (ratioShown d r < 1 → auditStatus_v1 d r = ("Low", "#ed8936")) ∧
    (ratioShown d r < 1 → 1/2 ≤ ratioShown d r →
      auditStatus_v2 d r = ("⚠ Average Ratio", "#ed8936")) ∧
    (ratioShown d r < 1/2 → auditStatus_v2 d r = ("⚠ Low Ratio", "#f56565")) := by
  refine ⟨fun h => ⟨?_, ?_⟩, fun h => ?_, fun h h2 => ?_, fun h => ?_⟩
  · rw [auditStatus_v1, if_pos h]
  · rw [auditStatus_v2, if_pos h]
  · rw [auditStatus_v1, if_neg (not_le.mpr h)]
  · rw [auditStatus_v2, if_neg (not_le.mpr h), if_pos h2]
  · have h1 : ¬ 1 ≤ ratioShown d r := not_le.mpr (lt_trans h (by norm_num))
    rw [auditStatus_v2, if_neg h1, if_neg (not_le.mpr h)]

/-- Witness for the amended C9 at counts 4 and 2 (ratio 2.00). -/
theorem auditStatus_thresholds_w :
    auditStatus_v1 4 2 = ("Good", "#48bb78") ∧
    auditStatus_v2 4 2 = ("✓ Good Ratio", "#48bb78") :=
  (auditStatus_thresholds 4 2).1 (by
    rw [ratioShown, if_pos (by norm_num), toFixed2Val]
    norm_num)

/-- C10: for every input pair not both zero, the two coexisting revisions of
the AuditRatio donut compute the same derived data: the same center ratio
string and the same start and end angles of the two segments; both render
guards also agree and produce data exactly on such pairs. -/
theorem auditRevisions_agree (d r : ℕ) (h : ¬ (d = 0 ∧ r = 0)) :
    auditGraphData_v2 d r = auditGraphData_v1 d r ∧
    renderAudit_v2 d r = renderAudit_v1 d r ∧
    (renderAudit_v1 d r).isSome := by
  refine ⟨rfl, rfl, ?_⟩
  rw [renderAudit_v1, if_neg h]
  rfl

/-- Witness for C10 at counts 5 and 3. -/
theorem auditRevisions_agree_w :
    auditGraphData_v2 5 3 = auditGraphData_v1 5 3 ∧
    renderAudit_v2 5 3 = renderAudit_v1 5 3 ∧
    (renderAudit_v1 5 3).isSome :=
  auditRevisions_agree 5 3 (by decide)

lemma jadd_none_right (x : JSNum) : jadd x none = none := by cases x <;> rfl

lemma jadd_none_left (x : JSNum) : jadd none x = none := by cases x <;> rfl

lemma timelineScan_cons (c : JSNum) (t : Transaction) (rest : List Transaction) :
    timelineScan c (t :: rest)
      = ⟨t.createdAt, t.amount, jadd c t.amount, t.path, jsName t.objectName⟩
          :: timelineScan (jadd c t.amount) rest := rfl

lemma timelineScan_ne_nil (c : JSNum) (l : List Transaction) (h : l ≠ []) :
    timelineScan c l ≠ [] := by
  cases l with
  | nil => cases h rfl
  | cons t rest => rw [timelineScan_cons]; simp

lemma getLast?_cons_of_ne {α : Type _} (x : α) (L : List α) (h : L ≠ []) :
    (x :: L).getLast? = L.getLast? := by
  cases L with
  | nil => cases h rfl
  | cons y ys => exact List.getLast?_cons_cons

lemma amountsSum_cons (t : Transaction) (l : List Transaction) :
    amountsSum (t :: l) = t.amount.getD 0 + amountsSum l := by simp [amountsSum]

lemma timelineScan_last_some (l : List Transaction) : ∀ c : ℚ,
    (∀ t ∈ l, t.amount.isSome) → l ≠ [] →
    (timelineScan (some c) l).getLast?.map TimelinePoint.cumulative
      = some (some (c + amountsSum l)) := by
  induction l with
  | nil => intro c _ hne; cases hne rfl
  | cons t rest ih =>
    intro c h hne
    obtain ⟨a, ha⟩ := Option.isSome_iff_exists.mp (h t (List.mem_cons_self t rest))
    have hj : jadd (some c) t.amount = some (c + a) := by rw [ha]; rfl
    cases rest with
    | nil =>
      rw [timelineScan_cons]
      simp [timelineScan, hj, amountsSum_cons, amountsSum, ha, jadd]
    | cons u us =>
      have hrest : ∀ x ∈ u :: us, x.amount.isSome :=
        fun x hx => h x (List.mem_cons_of_mem _ hx)
      rw [timelineScan_cons,
        getLast?_cons_of_ne _ _ (timelineScan_ne_nil _ _ (by simp)), hj,
        ih (c + a) hrest (by simp), amountsSum_cons t (u :: us), ha]
      simp [add_assoc]

lemma timelineScan_last_none (l : List Transaction) : ∀ c : JSNum,
    (c = none ∨ ∃ t ∈ l, t.amount = none) → l ≠ [] →
    (timelineScan c l).getLast?.map TimelinePoint.cumulative = some none := by
  induction l with
  | nil => intro c _ hne; cases hne rfl
  | cons t rest ih =>
    intro c h hne
    cases rest with
    | nil =>
      rw [timelineScan_cons]
      rcases h with hc | ⟨x, hx, hxn⟩
      · subst hc; simp [timelineScan, jadd_none_left]
      · have hxt : x = t := by simpa using hx
        subst hxt
        simp [timelineScan, hxn, jadd_none_right]
    | cons u us =>
      rw [timelineScan_cons,
        getLast?_cons_of_ne _ _ (timelineScan_ne_nil _ _ (by simp))]
      apply ih
      · rcases h with hc | ⟨x, hx, hxn⟩
        · subst hc; exact Or.inl (jadd_none_left _)
        · rcases List.mem_cons.mp hx with h1 | h2
          · subst h1; exact Or.inl (by rw [hxn]; exact jadd_none_right _)
          · exact Or.inr ⟨x, h2, hxn⟩
      · simp

lemma timelineScan_chain (l : List Transaction) : ∀ c : ℚ,
    (∀ t ∈ l, ∃ a, t.amount = some a ∧ 0 ≤ a) →
    (timelineScan (some c) l).Chain' (fun p q => jle p.cumulative q.cumulative) ∧
    (∀ p ∈ (timelineScan (some c) l).head?, ∃ b, p.cumulative = some b ∧ c ≤ b) := by
  induction l with
  | nil => intro c _; exact ⟨List.chain'_nil, by simp [timelineScan]⟩
  | cons t rest ih =>
    intro c h
    obtain ⟨a, ha, han⟩ := h t (List.mem_cons_self t rest)
    have hrest : ∀ x ∈ rest, ∃ b, x.amount = some b ∧ 0 ≤ b :=
      fun x hx => h x (List.mem_cons_of_mem _ hx)
    obtain ⟨ihc, ihh⟩ := ih (c + a) hrest
    have hj : jadd (some c) t.amount = some (c + a) := by rw [ha]; rfl
    constructor
    · rw [timelineScan_cons, List.chain'_cons', hj]
      refine ⟨fun q hq => ?_, ihc⟩
      obtain ⟨b, hb, hcb⟩ := ihh q hq
      exact ⟨c + a, b, rfl, hb, hcb⟩
    · rw [timelineScan_cons]
      intro p hp
      simp only [List.head?_cons, Option.mem_def, Option.some.injEq] at hp
      subst hp
      exact ⟨c + a, hj, by linarith⟩

/-- C1: when all amounts are present, the timeline points of
DataProcessor.processXPTimeline have a last running total equal to the sum
of all transaction amounts, the same for every reordering of the input, and
when all amounts are nonnegative the running totals are monotonically
non-decreasing along the output. -/
theorem processXPTimeline_correct (ts : List Transaction) (hall : allPresent ts) :
    ((∀ t ∈ ts, ∃ a, t.amount = some a ∧ 0 ≤ a) →
      (processXPTimeline ts).Chain' (fun p q => jle p.cumulative q.cumulative)) ∧
    (ts ≠ [] →
      (processXPTimeline ts).getLast?.map TimelinePoint.cumulative
        = some (some (amountsSum ts))) ∧
    (∀ ts2 : List Transaction, ts2.Perm ts → ts2 ≠ [] →
      (processXPTimeline ts2).getLast?.map TimelinePoint.cumulative
        = some (some (amountsSum ts))) := by
  have key : ∀ l : List Transaction, allPresent l → l ≠ [] →
      (processXPTimeline l).getLast?.map TimelinePoint.cumulative
        = some (some (amountsSum l)) := by
    intro l hl hne
    have hperm : (l.insertionSort byDate).Perm l := List.perm_insertionSort _ _
    have hs : ∀ t ∈ l.insertionSort byDate, t.amount.isSome :=
      fun t ht => hl t (hperm.mem_iff.mp ht)
    have hsne : l.insertionSort byDate ≠ [] := by
      intro h0
      apply hne
      have hlen := hperm.length_eq
      rw [h0] at hlen
      exact List.length_eq_zero.mp hlen.symm
    have hsum : amountsSum (l.insertionSort byDate) = amountsSum l :=
      List.Perm.sum_eq (hperm.map _)
    rw [processXPTimeline, timelineScan_last_some _ 0 hs hsne, hsum]
    norm_num
  refine ⟨?_, fun hne => key ts hall hne, fun ts2 hp hne => ?_⟩
  · intro hnn
    have hperm : (ts.insertionSort byDate).Perm ts := List.perm_insertionSort _ _
    have hs : ∀ t ∈ ts.insertionSort byDate, ∃ a, t.amount = some a ∧ 0 ≤ a :=
      fun t ht => hnn t (hperm.mem_iff.mp ht)
    exact (timelineScan_chain _ 0 hs).1
  · have hall2 : allPresent ts2 := fun t ht => hall t (hp.mem_iff.mp ht)
    have hsum2 : amountsSum ts2 = amountsSum ts := List.Perm.sum_eq (hp.map _)
    rw [key ts2 hall2 hne, hsum2]

/-- Witness for C1 on a two-transaction list given in reverse time order. -/
theorem processXPTimeline_correct_w :
    allPresent [⟨2, some 50, "p2", some "B"⟩, ⟨1, some 100, "p1", some "A"⟩] ∧
    (processXPTimeline
        [⟨2, some 50, "p2", some "B"⟩, ⟨1, some 100, "p1", some "A"⟩]).getLast?.map
        TimelinePoint.cumulative
      = some (some (amountsSum
          [⟨2, some 50, "p2", some "B"⟩, ⟨1, some 100, "p1", some "A"⟩])) :=
  ⟨by decide, (processXPTimeline_correct _ (by decide)).2.1 (by decide)⟩

/-- C3 counterexample: a transaction with an absent amount is not treated as
0 by either builder: its running total in processXPTimeline is NaN rather
than 0 and its group total in getTopProjects is NaN, so an absent amount
does corrupt the computed totals; only the absent subject name is defaulted
to the Unknown label. -/
theorem missingAmount_cx :
    (processXPTimeline [⟨0, none, "", none⟩]).map TimelinePoint.cumulative = [none] ∧
    (none : JSNum) ≠ some 0 ∧
    groupBySubject [⟨0, none, "", none⟩] = [("Unknown", none)] ∧
    (processXPTimeline [⟨0, none, "", none⟩]).map TimelinePoint.objectName
      = ["Unknown"] := by
  decide

lemma timelineScan_map_objectName (l : List Transaction) : ∀ c : JSNum,
    (timelineScan c l).map TimelinePoint.objectName
      = l.map (fun t => jsName t.objectName) := by
  induction l with
  | nil => intro c; rfl
  | cons t rest ih => intro c; rw [timelineScan_cons]; simp [ih]

lemma groupStep_eq (m : List (String × JSNum)) (t : Transaction) :
    groupStep m t
      = upsert m (jsName t.objectName)
          (jadd (some (jsOr0 ((lookupVal m (jsName t.objectName)).getD (some 0))))
            t.amount) := rfl

lemma entriesSum_cons (e : String × JSNum) (m : List (String × JSNum)) :
    entriesSum (e :: m) = e.2.getD 0 + entriesSum m := by simp [entriesSum]

lemma upsert_map_fst_of_mem (m : List (String × JSNum)) (k : String) (v : JSNum) :
    k ∈ m.map Prod.fst → (upsert m k v).map Prod.fst = m.map Prod.fst := by
  induction m with
  | nil => intro h; simp at h
  | cons e rest ih =>
    intro h
    by_cases he : e.1 = k
    · simp [upsert, he]
    · have hk : k ∈ rest.map Prod.fst := by
        rw [List.map_cons] at h
        rcases List.mem_cons.mp h with h1 | h2
        · exact absurd h1.symm he
        · exact h2
      simp [upsert, he, ih hk]

lemma upsert_map_fst_of_not_mem (m : List (String × JSNum)) (k : String) (v : JSNum) :
    k ∉ m.map Prod.fst → (upsert m k v).map Prod.fst = m.map Prod.fst ++ [k] := by
  induction m with
  | nil => intro _; rfl
  | cons e rest ih =>
    intro h
    have he : e.1 ≠ k := fun hek => h (by simp [hek])
    have hk : k ∉ rest.map Prod.fst := fun hm => h (by simp [hm])
    simp [upsert, he, ih hk]

lemma lookupVal_eq_none_iff (m : List (String × JSNum)) (k : String) :
    lookupVal m k = none ↔ k ∉ m.map Prod.fst := by
  induction m with
  | nil => simp [lookupVal]
  | cons e rest ih =>
    rw [lookupVal]
    by_cases he : e.1 = k
    · simp [he]
    · rw [if_neg he, ih]
      simp only [List.map_cons, List.mem_cons, not_or]
      constructor
      · intro h
        exact ⟨fun hk => he hk.symm, h⟩
      · intro h
        exact h.2

lemma lookupVal_mem (m : List (String × JSNum)) (k : String) (w : JSNum) :
    lookupVal m k = some w → (k, w) ∈ m := by
  induction m with
  | nil => intro h; simp [lookupVal] at h
  | cons e rest ih =>
    intro h
    rw [lookupVal] at h
    by_cases he : e.1 = k
    · rw [if_pos he] at h
      injection h with h2
      have hkw : (k, w) = e := by rw [← he, ← h2]
      rw [hkw]
      exact List.mem_cons_self e rest
    · rw [if_neg he] at h
      exact List.mem_cons_of_mem _ (ih h)

lemma lookupVal_isSome (m : List (String × JSNum)) (k : String) (w : JSNum)
    (hm : ∀ e ∈ m, e.2.isSome) (h : lookupVal m k = some w) : w.isSome :=
  hm (k, w) (lookupVal_mem m k w h)

lemma entriesSum_upsert_found (m : List (String × JSNum)) (k : String) (w v : JSNum) :
    lookupVal m k = some w →
    entriesSum (upsert m k v) = entriesSum m + (v.getD 0 - w.getD 0) := by
  induction m with
  | nil => intro h; simp [lookupVal] at h
  | cons e rest ih =>
    intro h
    rw [lookupVal] at h
    by_cases he : e.1 = k
    · rw [if_pos he] at h
      injection h with h2
      rw [upsert, if_pos he, entriesSum_cons, entriesSum_cons, ← h2]
      ring
    · rw [if_neg he] at h
      rw [upsert, if_neg he, entriesSum_cons, entriesSum_cons, ih h]
      ring

lemma entriesSum_upsert_new (m : List (String × JSNum)) (k : String) (v : JSNum) :
    lookupVal m k = none →
    entriesSum (upsert m k v) = entriesSum m + v.getD 0 := by
  induction m with
  | nil => intro _; simp [upsert, entriesSum]
  | cons e rest ih =>
    intro h
    rw [lookupVal] at h
    by_cases he : e.1 = k
    · rw [if_pos he] at h; cases h
    · rw [if_neg he] at h
      rw [upsert, if_neg he, entriesSum_cons, entriesSum_cons, ih h]
      ring

lemma upsert_values_isSome (m : List (String × JSNum)) (k : String) (v : JSNum)
    (hm : ∀ e ∈ m, e.2.isSome) (hv : v.isSome) :
    ∀ e ∈ upsert m k v, e.2.isSome := by
  induction m with
  | nil => intro e he; simp [upsert] at he; rw [he]; exact hv
  | cons b rest ih =>
    intro e he
    rw [upsert] at he
    by_cases hb : b.1 = k
    · rw [if_pos hb] at he
      rcases List.mem_cons.mp he with h1 | h2
      · rw [h1]; exact hv
      · exact hm e (List.mem_cons_of_mem _ h2)
    · rw [if_neg hb] at he
      rcases List.mem_cons.mp he with h1 | h2
      · rw [h1]; exact hm b (List.mem_cons_self b rest)
      · exact ih (fun x hx => hm x (List.mem_cons_of_mem _ hx)) e h2

lemma groupStep_sum (m : List (String × JSNum)) (t : Transaction) (a : ℚ)
    (hm : ∀ e ∈ m, e.2.isSome) (ha : t.amount = some a) :
    entriesSum (groupStep m t) = entriesSum m + a ∧
    (∀ e ∈ groupStep m t, e.2.isSome) := by
  rw [groupStep_eq]
  cases hlk : lookupVal m (jsName t.objectName) with
  | none =>
    have hv : jadd (some (jsOr0 ((none : Option JSNum).getD (some 0))))
        t.amount = some (0 + a) := by rw [ha]; rfl
    rw [hv]
    constructor
    · rw [entriesSum_upsert_new _ _ _ hlk]
      simp
    · exact upsert_values_isSome _ _ _ hm rfl
  | some w =>
    obtain ⟨c, hc⟩ := Option.isSome_iff_exists.mp (lookupVal_isSome m _ w hm hlk)
    have hv : jadd (some (jsOr0 ((some w).getD (some 0))))
        t.amount = some (c + a) := by rw [hc, ha]; rfl
    rw [hv]
    constructor
    · rw [entriesSum_upsert_found _ _ w _ hlk, hc]
      simp
    · exact upsert_values_isSome _ _ _ hm rfl

lemma groupFold_sum (ts : List Transaction) : ∀ m : List (String × JSNum),
    (∀ e ∈ m, e.2.isSome) → allPresent ts →
    (∀ e ∈ List.foldl groupStep m ts, e.2.isSome) ∧
    entriesSum (List.foldl groupStep m ts) = entriesSum m + amountsSum ts := by
  induction ts with
  | nil => intro m hm _; exact ⟨hm, by simp [amountsSum]⟩
  | cons t rest ih =>
    intro m hm hall
    obtain ⟨a, ha⟩ :=
      Option.isSome_iff_exists.mp (hall t (List.mem_cons_self t rest))
    have hallr : allPresent rest := fun x hx => hall x (List.mem_cons_of_mem _ hx)
    obtain ⟨hsum, hvals⟩ := groupStep_sum m t a hm ha
    obtain ⟨ih1, ih2⟩ := ih (groupStep m t) hvals hallr
    rw [List.foldl_cons]
    refine ⟨ih1, ?_⟩
    rw [ih2, hsum, amountsSum_cons t rest, ha]
    simp
    ring

lemma groupFold_keys (ts : List Transaction) : ∀ m : List (String × JSNum),
    ((m.map Prod.fst).Nodup → ((List.foldl groupStep m ts).map Prod.fst).Nodup) ∧
    (∀ s, s ∈ (List.foldl groupStep m ts).map Prod.fst ↔
      s ∈ m.map Prod.fst ∨ s ∈ ts.map (fun t => jsName t.objectName)) := by
  induction ts with
  | nil => intro m; simp
  | cons t rest ih =>
    intro m
    rw [List.foldl_cons]
    obtain ⟨ihn, ihm⟩ := ih (groupStep m t)
    by_cases hk : jsName t.objectName ∈ m.map Prod.fst
    · have hkeys : (groupStep m t).map Prod.fst = m.map Prod.fst := by
        rw [groupStep_eq]; exact upsert_map_fst_of_mem _ _ _ hk
      constructor
      · intro hnd
        exact ihn (by rw [hkeys]; exact hnd)
      · intro s
        rw [ihm s, hkeys]
        simp only [List.map_cons, List.mem_cons]
        constructor
        · rintro (h | h)
          · exact Or.inl h
          · exact Or.inr (Or.inr h)
        · rintro (h | h | h)
          · exact Or.inl h
          · exact Or.inl (h ▸ hk)
          · exact Or.inr h
    · have hkeys : (groupStep m t).map Prod.fst
          = m.map Prod.fst ++ [jsName t.objectName] := by
        rw [groupStep_eq]; exact upsert_map_fst_of_not_mem _ _ _ hk
      constructor
      · intro hnd
        apply ihn
        rw [hkeys]
        simp [List.nodup_append, hnd, hk]
      · intro s
        rw [ihm s, hkeys]
        simp only [List.mem_append, List.mem_singleton, List.map_cons, List.mem_cons]
        tauto

lemma insertionSort_ne_nil {α : Type _} (r : α → α → Prop) [DecidableRel r]
    (l : List α) (h : l ≠ []) : l.insertionSort r ≠ [] := by
  intro h0
  apply h
  have hlen := (List.perm_insertionSort r l).length_eq
  rw [h0] at hlen
  exact List.length_eq_zero.mp hlen.symm

/-- C3 corrected claim: an absent subject name is defaulted to the literal
Unknown label in both builders and neither builder throws (both are total
functions of the input list), but an absent amount is not defaulted to 0:
the NaN it produces is absorbing, so whenever some transaction of a
nonempty list has an absent amount the last running total of the timeline
is NaN rather than a number. -/
theorem missingField_defaults (ts : List Transaction) :
    (processXPTimeline ts).map TimelinePoint.objectName
      = (ts.insertionSort byDate).map (fun t => jsName t.objectName) ∧
    jsName none = "Unknown" ∧
    (∀ s, s ∈ (groupBySubject ts).map Prod.fst ↔
      s ∈ ts.map (fun t => jsName t.objectName)) ∧
    (ts ≠ [] → (∃ t ∈ ts, t.amount = none) →
      (processXPTimeline ts).getLast?.map TimelinePoint.cumulative = some none) := by
  refine ⟨timelineScan_map_objectName _ _, rfl, fun s => ?_, fun hne hex => ?_⟩
  · have h := (groupFold_keys ts []).2 s
    simpa [groupBySubject] using h
  · have hperm : (ts.insertionSort byDate).Perm ts := List.perm_insertionSort _ _
    have hex2 : ∃ t ∈ ts.insertionSort byDate, t.amount = none := by
      obtain ⟨t, ht, htn⟩ := hex
      exact ⟨t, hperm.mem_iff.mpr ht, htn⟩
    exact timelineScan_last_none _ (some 0) (Or.inr hex2)
      (insertionSort_ne_nil byDate ts hne)

/-- Witness for the amended C3 on a single transaction with an absent
subject name and an absent amount. -/
theorem missingField_defaults_w :
    ([⟨0, none, "", none⟩] : List Transaction) ≠ [] ∧
    (processXPTimeline [⟨0, none, "", none⟩]).getLast?.map TimelinePoint.cumulative
      = some none :=
  ⟨by decide, (missingField_defaults [⟨0, none, "", none⟩]).2.2.2 (by decide)
    ⟨⟨0, none, "", none⟩, by decide, rfl⟩⟩

/-- C5: for lists whose amounts are all present, grouping by subject label
is a lossless partition: the sum of the per-subject totals of
DataProcessor.getTopProjects before truncation equals the sum of all input
amounts (every total being a number, not NaN), and there is exactly one
entry per distinct subject label: the keys are duplicate-free and a label
occurs among the keys exactly when some input transaction carries it. -/
theorem groupBySubject_lossless (ts : List Transaction) (hall : allPresent ts) :
    entriesSum (groupBySubject ts) = amountsSum ts ∧
    (∀ e ∈ groupBySubject ts, e.2.isSome) ∧
    ((groupBySubject ts).map Prod.fst).Nodup ∧
    (∀ s, s ∈ (groupBySubject ts).map Prod.fst ↔
      s ∈ ts.map (fun t => jsName t.objectName)) := by
  obtain ⟨h1, h2⟩ := groupFold_sum ts [] (by simp) hall
  obtain ⟨h3, h4⟩ := groupFold_keys ts []
  refine ⟨?_, h1, h3 (by simp), fun s => by simpa using h4 s⟩
  have hz : entriesSum ([] : List (String × JSNum)) = 0 := by simp [entriesSum]
  rw [groupBySubject, h2, hz, zero_add]

/-- Witness for C5 on a three-transaction list with a repeated subject. -/
theorem groupBySubject_lossless_w :
    allPresent [⟨0, some 30, "", some "A"⟩, ⟨1, some 20, "", some "B"⟩,
      ⟨2, some 25, "", some "A"⟩] ∧
    entriesSum (groupBySubject [⟨0, some 30, "", some "A"⟩, ⟨1, some 20, "", some "B"⟩,
        ⟨2, some 25, "", some "A"⟩])
      = amountsSum [⟨0, some 30, "", some "A"⟩, ⟨1, some 20, "", some "B"⟩,
        ⟨2, some 25, "", some "A"⟩] :=
  ⟨by decide, (groupBySubject_lossless _ (by decide)).1⟩

lemma xpDesc_of_some {a b : String × JSNum} {x y : ℚ} (hx : a.2 = some x)
    (hy : b.2 = some y) : xpDesc a b ↔ y ≤ x := by
  simp [xpDesc, hx, hy]

lemma orderedInsert_xpDesc_pairwise (a : String × JSNum) :
    ∀ l : List (String × JSNum), a.2.isSome → (∀ e ∈ l, e.2.isSome) →
    l.Pairwise (fun p q => q.2.getD 0 ≤ p.2.getD 0) →
    (List.orderedInsert xpDesc a l).Pairwise (fun p q => q.2.getD 0 ≤ p.2.getD 0) := by
  intro l
  induction l with
  | nil => intro _ _ _; simp
  | cons b bs ih =>
    intro ha hl hp
    obtain ⟨hb1, hb2⟩ := List.pairwise_cons.mp hp
    obtain ⟨x, hx⟩ := Option.isSome_iff_exists.mp ha
    obtain ⟨y, hy⟩ := Option.isSome_iff_exists.mp (hl b (List.mem_cons_self b bs))
    rw [List.orderedInsert]
    by_cases hab : xpDesc a b
    · rw [if_pos hab]
      have hba : b.2.getD 0 ≤ a.2.getD 0 := by
        have hyx := (xpDesc_of_some hx hy).mp hab
        rw [hx, hy]
        simpa using hyx
      refine List.pairwise_cons.mpr ⟨?_, hp⟩
      intro q hq
      rcases List.mem_cons.mp hq with h1 | h2
      · rw [h1]; exact hba
      · exact le_trans (hb1 q h2) hba
    · rw [if_neg hab]
      have hxy : ¬ y ≤ x := fun hxy => hab ((xpDesc_of_some hx hy).mpr hxy)
      refine List.pairwise_cons.mpr
        ⟨?_, ih ha (fun e he => hl e (List.mem_cons_of_mem _ he)) hb2⟩
      intro q hq
      rcases (List.mem_orderedInsert xpDesc).mp hq with h1 | h2
      · rw [h1, hx, hy]
        simpa using le_of_lt (not_le.mp hxy)
      · exact hb1 q h2

lemma insertionSort_xpDesc_pairwise (m : List (String × JSNum))
    (hm : ∀ e ∈ m, e.2.isSome) :
    (m.insertionSort xpDesc).Pairwise (fun p q => q.2.getD 0 ≤ p.2.getD 0) := by
  induction m with
  | nil => simp
  | cons e rest ih =>
    have hperm : (rest.insertionSort xpDesc).Perm rest := List.perm_insertionSort _ _
    exact orderedInsert_xpDesc_pairwise e (rest.insertionSort xpDesc)
      (hm e (List.mem_cons_self e rest))
      (fun x hx => hm x (List.mem_cons_of_mem _ (hperm.mem_iff.mp hx)))
      (ih fun x hx => hm x (List.mem_cons_of_mem _ hx))

/-- C4 corrected claim: with all amounts present, getTopProjects returns at
most n entries for every n at least 0, each entry also present in the full
grouping, sorted descending by total; when the distinct subjects number at
most n (n at least 0) the result is the whole sorted grouping; n = 0 yields
the empty sequence; but a negative n follows JS slice semantics and yields
all but the last |n| sorted entries instead of the empty sequence. -/
theorem getTopProjects_props (ts : List Transaction) (n : ℤ) (hall : allPresent ts) :
    (0 ≤ n → ((getTopProjects ts n).length : ℤ) ≤ n) ∧
    (∀ e ∈ getTopProjects ts n, e ∈ groupBySubject ts) ∧
    (getTopProjects ts n).Pairwise (fun p q => q.2.getD 0 ≤ p.2.getD 0) ∧
    (0 ≤ n → ((groupBySubject ts).length : ℤ) ≤ n →
      (getTopProjects ts n).Perm (groupBySubject ts)) ∧
    (n = 0 → getTopProjects ts n = []) ∧
    (n < 0 → getTopProjects ts n
        = ((groupBySubject ts).insertionSort xpDesc).take
            (((groupBySubject ts).length : ℤ) + n).toNat) := by
  have hvals : ∀ e ∈ groupBySubject ts, e.2.isSome :=
    (groupFold_sum ts [] (by simp) hall).1
  have hperm : ((groupBySubject ts).insertionSort xpDesc).Perm (groupBySubject ts) :=
    List.perm_insertionSort _ _
  have hlen : ((groupBySubject ts).insertionSort xpDesc).length
      = (groupBySubject ts).length := hperm.length_eq
  have hpw : ((groupBySubject ts).insertionSort xpDesc).Pairwise
      (fun p q => q.2.getD 0 ≤ p.2.getD 0) :=
    insertionSort_xpDesc_pairwise _ hvals
  have hgtp : getTopProjects ts n
      = ((groupBySubject ts).insertionSort xpDesc).take
          (jsSliceEnd ((groupBySubject ts).insertionSort xpDesc).length n) := rfl
  refine ⟨?_, ?_, ?_, ?_, ?_, ?_⟩
  · intro h0
    rw [hgtp, List.length_take, jsSliceEnd, if_neg (not_lt.mpr h0), hlen]
    push_cast
    omega
  · intro e he
    rw [hgtp] at he
    exact hperm.mem_iff.mp ((List.take_sublist _ _).subset he)
  · rw [hgtp]
    exact List.Pairwise.sublist (List.take_sublist _ _) hpw
  · intro h0 hle
    rw [hgtp]
    have he : jsSliceEnd ((groupBySubject ts).insertionSort xpDesc).length n
        = ((groupBySubject ts).insertionSort xpDesc).length := by
      rw [jsSliceEnd, if_neg (not_lt.mpr h0), hlen]
      omega
    rw [he, List.take_length]
    exact hperm
  · intro h0
    subst h0
    rw [hgtp]
    have he : jsSliceEnd ((groupBySubject ts).insertionSort xpDesc).length 0 = 0 := by
      rw [jsSliceEnd, if_neg (by norm_num)]
      omega
    rw [he]
    rfl
  · intro hneg
    rw [hgtp]
    have he : jsSliceEnd ((groupBySubject ts).insertionSort xpDesc).length n
        = (((groupBySubject ts).length : ℤ) + n).toNat := by
      rw [jsSliceEnd, if_pos hneg, hlen]
      omega
    rw [he]

/-- Witness for the amended C4 at limit 10 on two transactions. -/
theorem getTopProjects_props_w :
    allPresent [⟨0, some 30, "", some "A"⟩, ⟨1, some 20, "", some "B"⟩] ∧
    (0 ≤ (10 : ℤ) →
      ((getTopProjects [⟨0, some 30, "", some "A"⟩, ⟨1, some 20, "", some "B"⟩]
          10).length : ℤ) ≤ 10) :=
  ⟨by decide, (getTopProjects_props _ 10 (by decide)).1⟩

/-- C4 counterexample: for the negative limit -1 (which is at most 0) on two
distinct subjects, getTopProjects returns one entry rather than the claimed
empty sequence, because JS slice(0, -1) drops entries from the end. -/
theorem getTopProjects_negativeLimit_cx :
    getTopProjects [⟨0, some 30, "", some "A"⟩, ⟨1, some 20, "", some "B"⟩] (-1)
      = [("A", some 30)] ∧
    getTopProjects [⟨0, some 30, "", some "A"⟩, ⟨1, some 20, "", some "B"⟩] (-1)
      ≠ [] := by
  have hg2 : groupBySubject [⟨0, some 30, "", some "A"⟩, ⟨1, some 20, "", some "B"⟩]
      = [("A", some 30), ("B", some 20)] := by
    have hg : groupBySubject [⟨0, some 30, "", some "A"⟩, ⟨1, some 20, "", some "B"⟩]
        = [("A", some ((0 : ℚ) + 30)), ("B", some ((0 : ℚ) + 20))] := rfl
    rw [hg]
    norm_num
  have hcond : xpDesc ("A", (some 30 : JSNum)) ("B", (some 20 : JSNum)) := by
    rw [xpDesc_of_some rfl rfl]
    norm_num
  have hs : (groupBySubject [⟨0, some 30, "", some "A"⟩,
        ⟨1, some 20, "", some "B"⟩]).insertionSort xpDesc
      = [("A", some 30), ("B", some 20)] := by
    rw [hg2]
    simp only [List.insertionSort, List.orderedInsert]
    rw [if_pos hcond]
  have h1 : getTopProjects [⟨0, some 30, "", some "A"⟩, ⟨1, some 20, "", some "B"⟩] (-1)
      = [("A", some 30)] := by
    have hgtp : getTopProjects [⟨0, some 30, "", some "A"⟩,
          ⟨1, some 20, "", some "B"⟩] (-1)
        = ((groupBySubject [⟨0, some 30, "", some "A"⟩,
            ⟨1, some 20, "", some "B"⟩]).insertionSort xpDesc).take
            (jsSliceEnd ((groupBySubject [⟨0, some 30, "", some "A"⟩,
              ⟨1, some 20, "", some "B"⟩]).insertionSort xpDesc).length (-1)) := rfl
    rw [hgtp, hs]
    rfl
  exact ⟨h1, by rw [h1]; simp⟩

end GraphqlDisplay
